import Mathlib

/-!
Verification of the `xhtmlchardet` character-set detector (`src/lib.rs`).

The Rust source is shallowly embedded below.  Bytes are modelled as `Nat`
(the source works on `u8`; no arithmetic in the source can overflow, all
operations are equality tests, `> 0` guards and index steps).  Strings are
modelled as lists of Unicode scalar values (`List Nat`); a Rust `String`
produced by the detector is such a list.  The `Read` trait object handed to
`detect` is modelled by the outcomes of the two `read` calls the function
performs: either a transport error or the list of bytes the reader wrote
into the (zero-initialised) buffer.
-/

set_option maxRecDepth 10000

/-- Models `std::io::Error`: an abstract transport-level error token. -/
structure IOError where
  kind : Nat
deriving DecidableEq, Repr

/-- `struct Bom(u8, u8, u8, u8)` — the first four bytes of the stream. -/
structure Bom where
  b0 : Nat
  b1 : Nat
  b2 : Nat
  b3 : Nat
deriving DecidableEq, Repr

/-- `enum Flavour` from the source. -/
inductive Flavour where
  | UCS
  | UTF
  | EBCDICFlavour
  | ASCII
  | Unknown
deriving DecidableEq, Repr

/-- `enum ByteOrder` from the source. -/
inductive ByteOrder where
  | BigEndian
  | LittleEndian
  | Unusual2143
  | Unusual3412
  | NotApplicable
deriving DecidableEq, Repr

/-- `enum Width` from the source, with its numeric discriminants. -/
inductive Width where
  | EightBit
  | SixteenBit
  | ThirtyTwoBit
deriving DecidableEq, Repr

/-- The numeric value of a `Width` (`*width as usize` in the source). -/
def Width.val : Width → Nat
  | Width.EightBit => 8
  | Width.SixteenBit => 16
  | Width.ThirtyTwoBit => 32

/-- `struct Descriptor(Flavour, Width, ByteOrder)` from the source. -/
structure Descriptor where
  flavour : Flavour
  width : Width
  order : ByteOrder
deriving DecidableEq, Repr

-- 32-Bit Encodings (source lines 49-54)
def UCS_4_BE : Descriptor := ⟨Flavour.UCS, Width.ThirtyTwoBit, ByteOrder.BigEndian⟩

def UCS_4_LE : Descriptor := ⟨Flavour.UCS, Width.ThirtyTwoBit, ByteOrder.LittleEndian⟩

def UCS_4_2143 : Descriptor := ⟨Flavour.UCS, Width.ThirtyTwoBit, ByteOrder.Unusual2143⟩

def UCS_4_3412 : Descriptor := ⟨Flavour.UCS, Width.ThirtyTwoBit, ByteOrder.Unusual3412⟩

-- 16-Bit Encodings (source lines 57-58)
def UTF_16_BE : Descriptor := ⟨Flavour.UTF, Width.SixteenBit, ByteOrder.BigEndian⟩

def UTF_16_LE : Descriptor := ⟨Flavour.UTF, Width.SixteenBit, ByteOrder.LittleEndian⟩

def UTF_8 : Descriptor := ⟨Flavour.UTF, Width.EightBit, ByteOrder.NotApplicable⟩

def EBCDIC : Descriptor := ⟨Flavour.EBCDICFlavour, Width.EightBit, ByteOrder.NotApplicable⟩

-- ASCII compatible encodings (source lines 64-76)
def ASCII_32BIT_BE : Descriptor := ⟨Flavour.Unknown, Width.ThirtyTwoBit, ByteOrder.BigEndian⟩

def ASCII_32BIT_LE : Descriptor := ⟨Flavour.Unknown, Width.ThirtyTwoBit, ByteOrder.LittleEndian⟩

def ASCII_16BIT_BE : Descriptor := ⟨Flavour.Unknown, Width.SixteenBit, ByteOrder.BigEndian⟩

def ASCII_16BIT_LE : Descriptor := ⟨Flavour.Unknown, Width.SixteenBit, ByteOrder.LittleEndian⟩

def ASCII_8BIT : Descriptor := ⟨Flavour.ASCII, Width.EightBit, ByteOrder.NotApplicable⟩

/-- Converts a Lean string literal to its list of Unicode scalar values; used
only to write the string constants of the source readably. -/
def strToCodes (s : String) : List Nat := s.data.map Char.toNat

/-- One step of Rust `str::to_lowercase`, restricted to the ASCII range
(every encoding name, alias-table entry and candidate the detector handles is
ASCII; non-ASCII simple case mappings are not modelled). -/
def lowerCode (c : Nat) : Nat := if 65 ≤ c ∧ c ≤ 90 then c + 32 else c

/-- Models `str::replace(pat, rep)`: replaces the leftmost, non-overlapping
occurrences of `pat`.  Structurally recursive on a fuel bounded by the length
of the haystack (each step consumes at least one byte, so the fuel never runs
out for the nonempty patterns the source uses). -/
def replaceListAux (pat rep : List Nat) : Nat → List Nat → List Nat
  | 0, h => h
  | fuel + 1, h =>
    match h with
    | [] => []
    | a :: rest =>
      if pat.isPrefixOf h ∧ pat ≠ [] then
        rep ++ replaceListAux pat rep fuel (h.drop pat.length)
      else
        a :: replaceListAux pat rep fuel rest

/-- Rust `haystack.replace(pat, rep)` for the nonempty patterns used by
`normalise`. -/
def replaceList (h pat rep : List Nat) : List Nat :=
  replaceListAux pat rep h.length h

/-- `fn normalise<S: AsRef<str>>(encoding: S) -> String` (source lines
217-224): lower-case, then apply the three alias replacements in order. -/
def normalise (encoding : List Nat) : List Nat :=
  replaceList
    (replaceList
      (replaceList (encoding.map lowerCode) (strToCodes "us-ascii") (strToCodes "ascii"))
      (strToCodes "utf8") (strToCodes "utf-8"))
    (strToCodes "shift-jis") (strToCodes "shift_jis")

/-- `fn push_if_not_contains<T: PartialEq>(vec: &mut Vec<T>, item: T)`
(source lines 226-230), as a pure append-at-end. -/
def push_if_not_contains {T : Type} [DecidableEq T] (vec : List T) (item : T) : List T :=
  if item ∈ vec then vec else vec ++ [item]

/-- A UTF-8 continuation byte (`0x80 ..= 0xBF`). -/
def isCont (b : Nat) : Bool := 0x80 ≤ b && b ≤ 0xBF

/-- Admissible second byte of a three-byte UTF-8 sequence with lead `b`
(per `core::str` validation: `E0` needs `A0..BF`, `ED` needs `80..9F`). -/
def cont2Ok3 (b b2 : Nat) : Bool :=
  if b = 0xE0 then 0xA0 ≤ b2 && b2 ≤ 0xBF
  else if b = 0xED then 0x80 ≤ b2 && b2 ≤ 0x9F
  else isCont b2

/-- Admissible second byte of a four-byte UTF-8 sequence with lead `b`
(per `core::str` validation: `F0` needs `90..BF`, `F4` needs `80..8F`). -/
def cont2Ok4 (b b2 : Nat) : Bool :=
  if b = 0xF0 then 0x90 ≤ b2 && b2 ≤ 0xBF
  else if b = 0xF4 then 0x80 ≤ b2 && b2 ≤ 0x8F
  else isCont b2

/-- Models `std::str::from_utf8(bytes).is_ok()`: strict UTF-8 validation
(rejecting overlong forms, surrogates and values above `U+10FFFF`), exactly
the byte-range table of `core::str::validations`. -/
def utf8Valid : List Nat → Bool
  | [] => true
  | b :: rest =>
    if b ≤ 0x7F then utf8Valid rest
    else if 0xC2 ≤ b ∧ b ≤ 0xDF then
      match rest with
      | [] => false
      | b2 :: rest2 => isCont b2 && utf8Valid rest2
    else if 0xE0 ≤ b ∧ b ≤ 0xEF then
      match rest with
      | b2 :: b3 :: rest3 => cont2Ok3 b b2 && isCont b3 && utf8Valid rest3
      | _ => false
    else if 0xF0 ≤ b ∧ b ≤ 0xF4 then
      match rest with
      | b2 :: b3 :: b4 :: rest4 =>
        cont2Ok4 b b2 && isCont b3 && isCont b4 && utf8Valid rest4
      | _ => false
    else false

/-- Models `String::from_utf8_lossy`, producing the decoded scalar values:
valid sequences decode to their code point, each maximal valid prefix of an
invalid or truncated sequence is replaced by one `U+FFFD` (the substitution
of maximal subparts performed by the Rust standard library). -/
def utf8DecodeLossy : List Nat → List Nat
  | [] => []
  | b :: rest =>
    if b ≤ 0x7F then b :: utf8DecodeLossy rest
    else if 0xC2 ≤ b ∧ b ≤ 0xDF then
      match rest with
      | [] => [0xFFFD]
      | b2 :: rest2 =>
        if isCont b2 then (64 * (b % 32) + b2 % 64) :: utf8DecodeLossy rest2
        else 0xFFFD :: utf8DecodeLossy (b2 :: rest2)
    else if 0xE0 ≤ b ∧ b ≤ 0xEF then
      match rest with
      | [] => [0xFFFD]
      | b2 :: rest2 =>
        if cont2Ok3 b b2 then
          match rest2 with
          | [] => [0xFFFD]
          | b3 :: rest3 =>
            if isCont b3 then
              (4096 * (b % 16) + 64 * (b2 % 64) + b3 % 64) :: utf8DecodeLossy rest3
            else 0xFFFD :: utf8DecodeLossy (b3 :: rest3)
        else 0xFFFD :: utf8DecodeLossy (b2 :: rest2)
    else if 0xF0 ≤ b ∧ b ≤ 0xF4 then
      match rest with
      | [] => [0xFFFD]
      | b2 :: rest2 =>
        if cont2Ok4 b b2 then
          match rest2 with
          | [] => [0xFFFD]
          | b3 :: rest3 =>
            if isCont b3 then
              match rest3 with
              | [] => [0xFFFD]
              | b4 :: rest4 =>
                if isCont b4 then
                  (262144 * (b % 8) + 4096 * (b2 % 64) + 64 * (b3 % 64) + b4 % 64) ::
                    utf8DecodeLossy rest4
                else 0xFFFD :: utf8DecodeLossy (b4 :: rest4)
            else 0xFFFD :: utf8DecodeLossy (b3 :: rest3)
        else 0xFFFD :: utf8DecodeLossy (b2 :: rest2)
    else 0xFFFD :: utf8DecodeLossy rest

/-- The Rust sampling loop of `search` (source lines 258-262):
`while index < len { push hay[index]; index += step }`, started with `index`
elements still to skip.  `takeEveryAux step l k` yields the elements of `l`
at positions `k, k + step, k + 2*step, ...` (for the `step ≥ 1` arising from
every `Width`; the source cannot call it with `step = 0`). -/
def takeEveryAux (step : Nat) : List Nat → Nat → List Nat
  | [], _ => []
  | a :: rest, 0 => a :: takeEveryAux step rest (step - 1)
  | _ :: rest, k + 1 => takeEveryAux step rest k

/-- Chunk size used by `search` (source line 249): `(*width as usize) / 8`,
taking the width of the supplied descriptor or of the `ASCII_8BIT` default. -/
def chunkSizeOf (descriptor : Option Descriptor) : Nat :=
  (descriptor.getD ASCII_8BIT).width.val / 8

/-- Start index used by `search` (source lines 251-256). -/
def startIndexOf (descriptor : Option Descriptor) : Nat :=
  match (descriptor.getD ASCII_8BIT).order with
  | ByteOrder.NotApplicable => 0
  | ByteOrder.LittleEndian => 0
  | ByteOrder.BigEndian => chunkSizeOf descriptor - 1
  | ByteOrder.Unusual2143 => 2
  | ByteOrder.Unusual3412 => 1

/-- The reduction loop of `search` (source lines 258-262): one byte every
`chunk_size` bytes, starting at `startIndexOf`. -/
def reduceBuffer (haystack : List Nat) (descriptor : Option Descriptor) : List Nat :=
  takeEveryAux (chunkSizeOf descriptor) haystack (startIndexOf descriptor)

/-- A `"` or a quote character, the two delimiters handled by `search`
(source lines 270-271); 34 and 39 are their code points. -/
def isQuote (c : Nat) : Bool := c == 34 || c == 39

/-- First position at which `needle` occurs as a contiguous run of `hay`
(`str::find`; positions in decoded characters — for the ASCII needles the
source passes, byte positions and character positions of the first match
coincide because UTF-8 is self-synchronising). -/
def findSublist (needle : List Nat) : List Nat → Option Nat
  | [] => if needle.isPrefixOf ([] : List Nat) then some 0 else none
  | a :: rest =>
    if needle.isPrefixOf (a :: rest) then some 0
    else (findSublist needle rest).map (· + 1)

/-- The value extraction of `search` (source lines 266-272): the characters
after the needle, leading quotes skipped, up to the next quote or the end. -/
def extractAfter (needle : List Nat) (pos : Nat) (text : List Nat) : List Nat :=
  ((text.drop (pos + needle.length)).dropWhile isQuote).takeWhile fun c => !(isQuote c)

/-- `fn search(needle, haystack, descriptor) -> Option<String>` (source
lines 246-274). -/
def search (needle haystack : List Nat) (descriptor : Option Descriptor) : Option (List Nat) :=
  Option.map
    (fun pos => extractAfter needle pos (utf8DecodeLossy (reduceBuffer haystack descriptor)))
    (findSublist needle (utf8DecodeLossy (reduceBuffer haystack descriptor)))

/-- `fn endianify(encoding, descriptor) -> String` (source lines 232-244). -/
def endianify (encoding : List Nat) (descriptor : Option Descriptor) : List Nat :=
  if encoding = strToCodes "utf-16" then
    match (descriptor.getD ASCII_8BIT).order with
    | ByteOrder.LittleEndian => strToCodes "utf-16le"
    | ByteOrder.BigEndian => strToCodes "utf-16be"
    | _ => encoding
  else encoding

/-- `fn detect_byte_order_mark(bom: &Bom) -> Option<Descriptor>` (source
lines 157-215): the match arms in source order. -/
def detect_byte_order_mark (bom : Bom) : Option Descriptor :=
  -- With Byte Order Mark
  if bom.b0 = 0x00 ∧ bom.b1 = 0x00 ∧ bom.b2 = 0xFE ∧ bom.b3 = 0xFF then some UCS_4_BE
  else if bom.b0 = 0xFF ∧ bom.b1 = 0xFE ∧ bom.b2 = 0x00 ∧ bom.b3 = 0x00 then some UCS_4_LE
  else if bom.b0 = 0x00 ∧ bom.b1 = 0x00 ∧ bom.b2 = 0xFF ∧ bom.b3 = 0xFE then some UCS_4_2143
  else if bom.b0 = 0xFE ∧ bom.b1 = 0xFF ∧ bom.b2 = 0x00 ∧ bom.b3 = 0x00 then some UCS_4_3412
  else if bom.b0 = 0xFE ∧ bom.b1 = 0xFF ∧ (bom.b2 > 0 ∨ bom.b3 > 0) then some UTF_16_BE
  else if bom.b0 = 0xFF ∧ bom.b1 = 0xFE ∧ (bom.b2 > 0 ∨ bom.b3 > 0) then some UTF_16_LE
  else if bom.b0 = 0xEF ∧ bom.b1 = 0xBB ∧ bom.b2 = 0xBF then some UTF_8
  -- Without Byte Order Mark
  else if bom.b0 = 0x00 ∧ bom.b1 = 0x00 ∧ bom.b2 = 0x00 ∧ bom.b3 = 0x3C then some ASCII_32BIT_BE
  else if bom.b0 = 0x3C ∧ bom.b1 = 0x00 ∧ bom.b2 = 0x00 ∧ bom.b3 = 0x00 then some ASCII_32BIT_LE
  else if bom.b0 = 0x00 ∧ bom.b1 = 0x00 ∧ bom.b2 = 0x3C ∧ bom.b3 = 0x00 then
    some ⟨Flavour.Unknown, Width.ThirtyTwoBit, ByteOrder.Unusual2143⟩
  else if bom.b0 = 0x00 ∧ bom.b1 = 0x3C ∧ bom.b2 = 0x00 ∧ bom.b3 = 0x00 then
    some ⟨Flavour.Unknown, Width.ThirtyTwoBit, ByteOrder.Unusual3412⟩
  else if bom.b0 = 0x00 ∧ bom.b1 = 0x3C ∧ bom.b2 = 0x00 ∧ bom.b3 = 0x3F then some ASCII_16BIT_BE
  else if bom.b0 = 0x3C ∧ bom.b1 = 0x00 ∧ bom.b2 = 0x3F ∧ bom.b3 = 0x00 then some ASCII_16BIT_LE
  else if bom.b0 = 0x3C ∧ bom.b1 = 0x3F ∧ bom.b2 = 0x78 ∧ bom.b3 = 0x6D then some ASCII_8BIT
  else if bom.b0 = 0x4C ∧ bom.b1 = 0x6F ∧ bom.b2 = 0xA7 ∧ bom.b3 = 0x94 then some EBCDIC
  else none

/-- The BOM-to-name match of `detect` (source lines 138-146), arms in
source order. -/
def bomName (possible_encoding : Option Descriptor) : Option (List Nat) :=
  match possible_encoding with
  | none => none
  | some d =>
    if d = UCS_4_LE then some (strToCodes "ucs-4le")
    else if d = UCS_4_BE then some (strToCodes "ucs-4be")
    else if d = UTF_16_LE then some (strToCodes "utf-16le")
    else if d = UTF_16_BE then some (strToCodes "utf-16be")
    else if d.flavour = Flavour.UTF ∧ d.width = Width.EightBit then some (strToCodes "utf-8")
    else if d = EBCDIC then some (strToCodes "ebcdic")
    else none

def encodingNeedle : List Nat := strToCodes "encoding="

def charsetNeedle : List Nat := strToCodes "charset="

/-- The declaration step of `detect` (source lines 118-127): search for
`encoding=`, fall back to `charset=`, then normalise, endianify and push. -/
def stepDecl (buf : List Nat) (possible_encoding : Option Descriptor) : List (List Nat) :=
  match (search encodingNeedle buf possible_encoding).orElse
      (fun _ => search charsetNeedle buf possible_encoding) with
  | some enc => push_if_not_contains [] (endianify (normalise enc) possible_encoding)
  | none => []

/-- The hint step of `detect` (source lines 129-135). -/
def stepHint (possible_encoding : Option Descriptor) (hint : Option (List Nat))
    (candidates : List (List Nat)) : List (List Nat) :=
  match hint with
  | some h => push_if_not_contains candidates (endianify (normalise h) possible_encoding)
  | none => candidates

/-- The BOM-name step of `detect` (source lines 137-147). -/
def stepBom (possible_encoding : Option Descriptor) (candidates : List (List Nat)) :
    List (List Nat) :=
  match bomName possible_encoding with
  | some name => push_if_not_contains candidates name
  | none => candidates

/-- The UTF-8 fallback of `detect` (source lines 149-152). -/
def stepFallback (buf : List Nat) (candidates : List (List Nat)) : List (List Nat) :=
  if candidates.isEmpty && utf8Valid buf then candidates ++ [strToCodes "utf-8"]
  else candidates

/-- The whole candidate assembly of `detect` (source lines 116-154), given
the 512-byte buffer and the BOM classification. -/
def candidatesOf (buf : List Nat) (possible_encoding : Option Descriptor)
    (hint : Option (List Nat)) : List (List Nat) :=
  stepFallback buf (stepBom possible_encoding
    (stepHint possible_encoding hint (stepDecl buf possible_encoding)))

/-- A zero-initialised buffer of `cap` bytes after a `read` that wrote the
prefix `bs` (`[0u8; cap]` plus `reader.read` which fills at most `cap`
bytes; the `take` is vacuous for contract-abiding readers). -/
def fillBuf (cap : Nat) (bs : List Nat) : List Nat :=
  bs.take cap ++ List.replicate (cap - (bs.take cap).length) 0

/-- The `Bom` tuple built by `detect` (source lines 99-107) from the bytes
the first read wrote into the zero-initialised 4-byte array. -/
def bomOf (bs : List Nat) : Bom :=
  ⟨(fillBuf 4 bs).getD 0 0, (fillBuf 4 bs).getD 1 0,
    (fillBuf 4 bs).getD 2 0, (fillBuf 4 bs).getD 3 0⟩

/-- `pub fn detect<R: Read>(reader, hint) -> Result<Vec<String>, io::Error>`
(source lines 97-155).  `read1` and `read2` are the outcomes of the two
`reader.read` calls (the bytes written into the 4-byte and 512-byte buffers,
or a transport error, which `try!` propagates at lines 100 and 114). -/
def detect (read1 read2 : Except IOError (List Nat)) (hint : Option (List Nat)) :
    Except IOError (List (List Nat)) :=
  match read1 with
  | Except.error e => Except.error e
  | Except.ok bs1 =>
    match read2 with
    | Except.error e => Except.error e
    | Except.ok bs2 =>
      Except.ok (candidatesOf (fillBuf 512 bs2) (detect_byte_order_mark (bomOf bs1)) hint)

/-! ## Definitions taken from the words of the specification

These mirror spec sections 4.1, 4.2, 4.4 and 5; each is compared with the
corresponding definition transcribed from the source. -/

/-- Spec section 4.1: the priority-ordered rule table of the BOM classifier,
"checked in this priority order, first match wins". -/
def bomTable : List ((Bom → Bool) × Descriptor) :=
  [ (fun t => decide (t.b0 = 0x00 ∧ t.b1 = 0x00 ∧ t.b2 = 0xFE ∧ t.b3 = 0xFF), UCS_4_BE),
    (fun t => decide (t.b0 = 0xFF ∧ t.b1 = 0xFE ∧ t.b2 = 0x00 ∧ t.b3 = 0x00), UCS_4_LE),
    (fun t => decide (t.b0 = 0x00 ∧ t.b1 = 0x00 ∧ t.b2 = 0xFF ∧ t.b3 = 0xFE), UCS_4_2143),
    (fun t => decide (t.b0 = 0xFE ∧ t.b1 = 0xFF ∧ t.b2 = 0x00 ∧ t.b3 = 0x00), UCS_4_3412),
    (fun t => decide (t.b0 = 0xFE ∧ t.b1 = 0xFF ∧ (t.b2 > 0 ∨ t.b3 > 0)), UTF_16_BE),
    (fun t => decide (t.b0 = 0xFF ∧ t.b1 = 0xFE ∧ (t.b2 > 0 ∨ t.b3 > 0)), UTF_16_LE),
    (fun t => decide (t.b0 = 0xEF ∧ t.b1 = 0xBB ∧ t.b2 = 0xBF), UTF_8),
    (fun t => decide (t.b0 = 0x00 ∧ t.b1 = 0x00 ∧ t.b2 = 0x00 ∧ t.b3 = 0x3C), ASCII_32BIT_BE),
    (fun t => decide (t.b0 = 0x3C ∧ t.b1 = 0x00 ∧ t.b2 = 0x00 ∧ t.b3 = 0x00), ASCII_32BIT_LE),
    (fun t => decide (t.b0 = 0x00 ∧ t.b1 = 0x00 ∧ t.b2 = 0x3C ∧ t.b3 = 0x00),
      ⟨Flavour.Unknown, Width.ThirtyTwoBit, ByteOrder.Unusual2143⟩),
    (fun t => decide (t.b0 = 0x00 ∧ t.b1 = 0x3C ∧ t.b2 = 0x00 ∧ t.b3 = 0x00),
      ⟨Flavour.Unknown, Width.ThirtyTwoBit, ByteOrder.Unusual3412⟩),
    (fun t => decide (t.b0 = 0x00 ∧ t.b1 = 0x3C ∧ t.b2 = 0x00 ∧ t.b3 = 0x3F), ASCII_16BIT_BE),
    (fun t => decide (t.b0 = 0x3C ∧ t.b1 = 0x00 ∧ t.b2 = 0x3F ∧ t.b3 = 0x00), ASCII_16BIT_LE),
    (fun t => decide (t.b0 = 0x3C ∧ t.b1 = 0x3F ∧ t.b2 = 0x78 ∧ t.b3 = 0x6D), ASCII_8BIT),
    (fun t => decide (t.b0 = 0x4C ∧ t.b1 = 0x6F ∧ t.b2 = 0xA7 ∧ t.b3 = 0x94), EBCDIC) ]

/-- Spec section 4.1: the descriptor of the first matching rule of the table,
no descriptor for any other tuple. -/
def bomSpec (t : Bom) : Option Descriptor :=
  (bomTable.find? fun r => r.1 t).map Prod.snd

/-- Spec section 4.5 step 5: the BOM-derived candidate name, written from the
claimed mapping over the descriptor fields. -/
def bomNameSpec : Option Descriptor → Option (List Nat)
  | none => none
  | some d =>
    if d.flavour = Flavour.UCS ∧ d.width = Width.ThirtyTwoBit ∧
        d.order = ByteOrder.LittleEndian then some (strToCodes "ucs-4le")
    else if d.flavour = Flavour.UCS ∧ d.width = Width.ThirtyTwoBit ∧
        d.order = ByteOrder.BigEndian then some (strToCodes "ucs-4be")
    else if d.flavour = Flavour.UTF ∧ d.width = Width.SixteenBit ∧
        d.order = ByteOrder.LittleEndian then some (strToCodes "utf-16le")
    else if d.flavour = Flavour.UTF ∧ d.width = Width.SixteenBit ∧
        d.order = ByteOrder.BigEndian then some (strToCodes "utf-16be")
    else if d.flavour = Flavour.UTF ∧ d.width = Width.EightBit then some (strToCodes "utf-8")
    else if d.flavour = Flavour.EBCDICFlavour ∧ d.width = Width.EightBit ∧
        d.order = ByteOrder.NotApplicable then some (strToCodes "ebcdic")
    else none

/-- Spec section 4.4: `endianify` written from the words of the spec — the
exact name `utf-16` gains an `le`/`be` suffix when the descriptor carries
`LittleEndian`/`BigEndian`; any other order value, any other name, or an
absent descriptor passes through unchanged. -/
def endianifySpec (name : List Nat) (descriptor : Option Descriptor) : List Nat :=
  match descriptor with
  | none => name
  | some d =>
    if name = strToCodes "utf-16" ∧ d.order = ByteOrder.LittleEndian then strToCodes "utf-16le"
    else if name = strToCodes "utf-16" ∧ d.order = ByteOrder.BigEndian then strToCodes "utf-16be"
    else name

/-- Spec section 4.2: the reduced logical-byte sequence, written from the
words of the spec — "one byte every `chunk_size` bytes starting at that
index", i.e. the bytes at positions `start + m * chunk_size` that fall
inside the buffer. -/
def specReduce (haystack : List Nat) (descriptor : Option Descriptor) : List Nat :=
  (List.range haystack.length).filterMap fun m =>
    haystack.get? (startIndexOf descriptor + m * chunkSizeOf descriptor)

/-- Spec section 4.2: `search` written from the words of the spec, differing
from the transcription of the source only in how the reduced sequence is
described. -/
def searchSpec (needle haystack : List Nat) (descriptor : Option Descriptor) :
    Option (List Nat) :=
  Option.map
    (fun pos => extractAfter needle pos (utf8DecodeLossy (specReduce haystack descriptor)))
    (findSublist needle (utf8DecodeLossy (specReduce haystack descriptor)))

/-- The UTF-16LE re-encoding of the declaration tail used in the spec's
endian back-fill scenario (each ASCII unit is `low byte, 0x00`). -/
def utf16leDeclTail : List Nat :=
  (strToCodes "?xml version=\"1.0\" encoding=\"UTF-16\"?>").flatMap fun c => [c, 0]

/-! ## Helper lemmas -/

theorem find?_rule_cons (p : Bom → Bool) (d : Descriptor)
    (rs : List ((Bom → Bool) × Descriptor)) (t : Bom) :
    ((((p, d) :: rs).find? fun r => r.1 t).map Prod.snd) =
      if p t = true then some d else ((rs.find? fun r => r.1 t).map Prod.snd) := by
  cases h : p t <;> simp [List.find?_cons, h]

/-! ## Claims -/

/-- C3 (confirmed): for every 4-byte tuple, the BOM classifier returns
exactly the descriptor of the first matching rule of the priority-ordered
table of spec section 4.1, and no descriptor for any other tuple. -/
theorem claim_C3_bom_classifier_table (t : Bom) :
    detect_byte_order_mark t = bomSpec t := by
  obtain ⟨a, b, c, d⟩ := t
  simp only [bomSpec, bomTable, find?_rule_cons, decide_eq_true_eq, List.find?_nil]
  rfl

/-- C6 (confirmed): the BOM-derived candidate step maps descriptors exactly
as the spec states: UCS-4 LE/BE, UTF-16 LE/BE, any UTF flavour of 8-bit
width to `utf-8`, EBCDIC to `ebcdic`, and no name for every other
descriptor or an absent one. -/
theorem claim_C6_bom_candidate_name (od : Option Descriptor) :
    bomName od = bomNameSpec od := by
  rcases od with _ | ⟨f, w, o⟩
  · rfl
  · cases f <;> cases w <;> cases o <;> rfl

/-- C5 (confirmed): `endianify` maps the exact name `utf-16` to `utf-16le`
under a little-endian descriptor and to `utf-16be` under a big-endian one,
and leaves every other name, order or absent descriptor unchanged; and a
stream with a UTF-16 little-endian BOM whose declaration reads
`encoding="UTF-16"` makes `detect` return `["utf-16le"]`. -/
theorem claim_C5_endianify_backfill :
    (∀ name od, endianify name od = endianifySpec name od) ∧
      detect (Except.ok [0xFF, 0xFE, 0x3C, 0x00]) (Except.ok utf16leDeclTail) none =
        Except.ok [strToCodes "utf-16le"] := by
  constructor
  · intro name od
    rcases od with _ | ⟨f, w, o⟩
    · by_cases h : name = strToCodes "utf-16" <;>
        simp [endianify, endianifySpec, h, ASCII_8BIT]
    · cases o <;> by_cases h : name = strToCodes "utf-16" <;>
        simp [endianify, endianifySpec, h, ASCII_8BIT]
  · rfl

/-- C1 (corrected): the claim says an error from the second read is never
propagated; the source applies the `try!` macro to both reads (lines 100 and
114), so a transport error of the second read is returned to the caller. -/
theorem claim_C1_counterexample :
    detect (Except.ok []) (Except.error ⟨0⟩) none = Except.error ⟨0⟩ := rfl

/-- C1 (amended): `detect` surfaces an I/O error exactly when one of its two
reads fails at the transport level; when both reads succeed the remaining
steps are total and an `Ok` list is produced. -/
theorem claim_C1_error_iff (r1 r2 : Except IOError (List Nat)) (hint : Option (List Nat)) :
    (∃ e, detect r1 r2 hint = Except.error e) ↔
      (∃ e, r1 = Except.error e) ∨ (∃ e, r2 = Except.error e) := by
  cases r1 <;> cases r2 <;> simp [detect]

/-- C2 (corrected): the claim says a failing first read produces no error and
a short first read always leaves the descriptor absent; in the source a
failing first read propagates through `try!` (line 100), and a 2-byte read
of `FE FF` zero-pads to the `UCS-4 3412` pattern, a present descriptor. -/
theorem claim_C2_counterexample :
    detect (Except.error ⟨7⟩) (Except.ok []) none = Except.error ⟨7⟩ ∧
      detect_byte_order_mark (bomOf [0xFE, 0xFF]) = some UCS_4_3412 := ⟨rfl, rfl⟩

/-- C2 (amended): a first read that succeeds with fewer than 4 bytes leaves
the missing bytes zero and never fails the call on this account — the
zero-padded tuple is classified normally, and an empty first read yields an
absent descriptor (a transport-level failure, by contrast, propagates). -/
theorem claim_C2_short_read (bs1 bs2 : List Nat) (hint : Option (List Nat))
    (h : bs1.length < 4) :
    (∃ l, detect (Except.ok bs1) (Except.ok bs2) hint = Except.ok l) ∧
      (bs1 = [] → detect_byte_order_mark (bomOf bs1) = none) := by
  refine ⟨⟨_, rfl⟩, ?_⟩
  rintro rfl
  rfl

theorem claim_C2_witness :
    (∃ l, detect (Except.ok []) (Except.ok []) none = Except.ok l) ∧
      (([] : List Nat) = [] → detect_byte_order_mark (bomOf []) = none) :=
  claim_C2_short_read [] [] none (by decide)

/-- C10 (confirmed): for an empty source and no hint, the 4-byte and
512-byte buffers stay zero-filled, the all-zero tuple matches no BOM rule,
the scanner finds neither needle, the all-NUL buffer validates as strict
UTF-8, and `detect` returns `Ok ["utf-8"]` through the fallback. -/
theorem claim_C10_empty_input :
    detect_byte_order_mark (bomOf []) = none ∧
      search encodingNeedle (fillBuf 512 []) none = none ∧
      search charsetNeedle (fillBuf 512 []) none = none ∧
      utf8Valid (fillBuf 512 []) = true ∧
      detect (Except.ok []) (Except.ok []) none = Except.ok [strToCodes "utf-8"] :=
  ⟨rfl, rfl, rfl, rfl, rfl⟩

theorem takeEveryAux_eq_filterMap (step : Nat) (hstep : 1 ≤ step) (l : List Nat) :
    ∀ k, takeEveryAux step l k =
      (List.range l.length).filterMap fun m => l.get? (k + m * step) := by
  induction l with
  | nil => intro k; rfl
  | cons a rest ih =>
    intro k
    cases k with
    | zero =>
      have key : ∀ m : Nat, (a :: rest).get? ((m + 1) * step) =
          rest.get? (step - 1 + m * step) := by
        intro m
        have h1 : (m + 1) * step = m * step + step := Nat.succ_mul m step
        rw [h1]
        generalize m * step = x
        obtain ⟨s, rfl⟩ : ∃ s, step = s + 1 := ⟨step - 1, by omega⟩
        have h2 : x + (s + 1) = (s + 1 - 1 + x) + 1 := by omega
        rw [h2, List.get?_cons_succ]
      simp only [takeEveryAux, ih (step - 1), List.length_cons, List.range_succ_eq_map,
        List.filterMap_cons, Nat.zero_add, Nat.zero_mul, List.get?_cons_zero,
        List.filterMap_map]
      have hfun : ((fun m => (a :: rest).get? (m * step)) ∘ Nat.succ) =
          fun m => rest.get? (step - 1 + m * step) := by
        funext m
        exact key m
      rw [hfun]
    | succ k =>
      have key : ∀ m : Nat, (a :: rest).get? (k + 1 + m * step) =
          rest.get? (k + m * step) := by
        intro m
        generalize m * step = x
        have h2 : k + 1 + x = (k + x) + 1 := by omega
        rw [h2, List.get?_cons_succ]
      have hlen : rest.length ≤ rest.length * step := by
        have h0 : 0 < step := by omega
        exact Nat.le_mul_of_pos_right _ h0
      have hnone : (a :: rest).get? (k + 1 + rest.length * step) = none := by
        rw [List.get?_eq_none, List.length_cons]
        generalize hx : rest.length * step = x
        rw [hx] at hlen
        omega
      simp only [takeEveryAux, ih k, List.length_cons, List.range_succ,
        List.filterMap_append, List.filterMap_cons, List.filterMap_nil, hnone,
        List.append_nil]
      have hfun : (fun m => (a :: rest).get? (k + 1 + m * step)) =
          fun m => rest.get? (k + m * step) := by
        funext m
        exact key m
      rw [hfun]

theorem chunkSizeOf_pos (od : Option Descriptor) : 1 ≤ chunkSizeOf od := by
  rcases od with _ | ⟨f, w, o⟩
  · decide
  · cases w <;> simp [chunkSizeOf, Width.val]

theorem reduceBuffer_eq_specReduce (haystack : List Nat) (od : Option Descriptor) :
    reduceBuffer haystack od = specReduce haystack od :=
  takeEveryAux_eq_filterMap (chunkSizeOf od) (chunkSizeOf_pos od) haystack (startIndexOf od)

theorem findSublist_eq_none_iff (needle : List Nat) (hay : List Nat) :
    findSublist needle hay = none ↔ ∀ i, needle.isPrefixOf (hay.drop i) = false := by
  induction hay with
  | nil =>
    cases h0 : needle.isPrefixOf ([] : List Nat)
    · simp [findSublist, h0, List.drop_nil]
    · simp [findSublist, h0, List.drop_nil]
  | cons a rest ih =>
    cases hp : needle.isPrefixOf (a :: rest)
    · simp only [findSublist, hp, Bool.false_eq_true, if_false, Option.map_eq_none', ih]
      constructor
      · intro h i
        cases i with
        | zero => simpa using hp
        | succ i => simpa [List.drop_succ_cons] using h i
      · intro h i
        simpa [List.drop_succ_cons] using h (i + 1)
    · constructor
      · intro h
        exact absurd h (by simp [findSublist, hp])
      · intro h
        have h0 := h 0
        rw [List.drop_zero, hp] at h0
        exact absurd h0 (by simp)

/-- C4 (confirmed): `search` reduces the buffer by taking one byte every
`chunk_size = width/8` bytes from the start index determined by the byte
order (0 for NotApplicable/LittleEndian, `chunk_size - 1` for BigEndian, 2
for Unusual-2143, 1 for Unusual-3412; 8-bit default without a descriptor),
extracts the quote-delimited characters after the needle in the permissively
decoded reduced text, and returns `none` exactly when the needle never
occurs in that text. -/
theorem claim_C4_search_reduction (needle haystack : List Nat) (od : Option Descriptor) :
    search needle haystack od = searchSpec needle haystack od ∧
      (search needle haystack od = none ↔
        ∀ i, needle.isPrefixOf ((utf8DecodeLossy (reduceBuffer haystack od)).drop i) = false) := by
  constructor
  · simp only [search, searchSpec, reduceBuffer_eq_specReduce]
  · rw [search, Option.map_eq_none', findSublist_eq_none_iff]

/-- C7 (corrected): the claim promises `["utf-8"]` whenever the whole
stream content is valid UTF-8; but only the 512-byte buffer after the first
four bytes is validated, so a multi-byte character straddling the 4-byte
boundary defeats it: the stream `abc` followed by the two-byte character
`C3 A9` is valid UTF-8, has no BOM pattern, no declaration and no hint, yet
`detect` returns `Ok []` because the buffer starts with the continuation
byte `A9`. -/
theorem claim_C7_counterexample :
    utf8Valid (strToCodes "abc" ++ [0xC3, 0xA9]) = true ∧
      detect_byte_order_mark (bomOf (strToCodes "abc" ++ [0xC3])) = none ∧
      search encodingNeedle (fillBuf 512 [0xA9]) none = none ∧
      search charsetNeedle (fillBuf 512 [0xA9]) none = none ∧
      detect (Except.ok (strToCodes "abc" ++ [0xC3])) (Except.ok [0xA9]) none =
        Except.ok [] := ⟨rfl, rfl, rfl, rfl, rfl⟩

/-- C7 (amended): for every stream whose first four bytes match no BOM rule,
whose scanned buffer yields neither an `encoding=` nor a `charset=` value,
and with no hint, `detect` returns `Ok ["utf-8"]` when the zero-padded
512-byte buffer validates strictly as UTF-8 and `Ok []` when it does not:
the fallback runs only on the still-empty candidate list and validates the
buffer strictly, with no replacement. -/
theorem claim_C7_utf8_fallback (bs1 bs2 : List Nat)
    (hbom : detect_byte_order_mark (bomOf bs1) = none)
    (henc : search encodingNeedle (fillBuf 512 bs2) none = none)
    (hcha : search charsetNeedle (fillBuf 512 bs2) none = none) :
    detect (Except.ok bs1) (Except.ok bs2) none =
      Except.ok (if utf8Valid (fillBuf 512 bs2) = true then [strToCodes "utf-8"] else []) := by
  simp only [detect, hbom, candidatesOf, stepDecl, henc, hcha, stepHint, stepBom, bomName,
    stepFallback]
  cases hv : utf8Valid (fillBuf 512 bs2) <;> simp [hv, Option.orElse]

theorem claim_C7_witness :
    detect (Except.ok (strToCodes "abcd")) (Except.ok (strToCodes "hello")) none =
        Except.ok [strToCodes "utf-8"] ∧
      detect (Except.ok (strToCodes "abcd")) (Except.ok [0xFF]) none = Except.ok [] :=
  ⟨(claim_C7_utf8_fallback (strToCodes "abcd") (strToCodes "hello") rfl rfl rfl).trans rfl,
    (claim_C7_utf8_fallback (strToCodes "abcd") [0xFF] rfl rfl rfl).trans rfl⟩

theorem push_if_not_contains_nodup {T : Type} [DecidableEq T] (v : List T) (x : T)
    (h : v.Nodup) : (push_if_not_contains v x).Nodup := by
  unfold push_if_not_contains
  split
  · exact h
  · rename_i hx
    simp [List.nodup_append, h, List.disjoint_singleton, hx]

theorem stepDecl_nodup (buf : List Nat) (od : Option Descriptor) : (stepDecl buf od).Nodup := by
  unfold stepDecl
  cases (search encodingNeedle buf od).orElse fun _ => search charsetNeedle buf od
  · exact List.nodup_nil
  · exact push_if_not_contains_nodup [] _ List.nodup_nil

theorem stepHint_nodup (od : Option Descriptor) (hint : Option (List Nat))
    (c : List (List Nat)) (h : c.Nodup) : (stepHint od hint c).Nodup := by
  unfold stepHint
  cases hint
  · exact h
  · exact push_if_not_contains_nodup _ _ h

theorem stepBom_nodup (od : Option Descriptor) (c : List (List Nat)) (h : c.Nodup) :
    (stepBom od c).Nodup := by
  unfold stepBom
  cases bomName od
  · exact h
  · exact push_if_not_contains_nodup _ _ h

theorem stepFallback_nodup (buf : List Nat) (c : List (List Nat)) (h : c.Nodup) :
    (stepFallback buf c).Nodup := by
  unfold stepFallback
  split
  · rename_i hcond
    have hc : c = [] := by
      rcases Bool.and_eq_true_iff.mp hcond with ⟨h1, _⟩
      exact List.isEmpty_iff.mp h1
    subst hc
    simp
  · exact h

theorem candidatesOf_nodup (buf : List Nat) (od : Option Descriptor)
    (hint : Option (List Nat)) : (candidatesOf buf od hint).Nodup :=
  stepFallback_nodup _ _ (stepBom_nodup _ _ (stepHint_nodup _ _ _ (stepDecl_nodup _ _)))

/-- C8 (confirmed): `push_if_not_contains` either leaves the list unchanged
or appends the new item at the end — first-seen insertion order is
preserved — and every list `detect` returns has no repeated entries. -/
theorem claim_C8_no_duplicates :
    (∀ (v : List (List Nat)) (x : List Nat),
        push_if_not_contains v x = v ∨ push_if_not_contains v x = v ++ [x]) ∧
      ∀ (r1 r2 : Except IOError (List Nat)) (hint : Option (List Nat)) (l : List (List Nat)),
        detect r1 r2 hint = Except.ok l → l.Nodup := by
  constructor
  · intro v x
    unfold push_if_not_contains
    split
    · exact Or.inl rfl
    · exact Or.inr rfl
  · intro r1 r2 hint l h
    cases r1 with
    | error e => exact absurd h (by simp [detect])
    | ok bs1 =>
      cases r2 with
      | error e => exact absurd h (by simp [detect])
      | ok bs2 =>
        simp only [detect, Except.ok.injEq] at h
        subst h
        exact candidatesOf_nodup _ _ _

theorem claim_C8_witness : ([strToCodes "utf-8"] : List (List Nat)).Nodup :=
  claim_C8_no_duplicates.2 (Except.ok []) (Except.ok []) none [strToCodes "utf-8"] rfl

theorem push_if_not_contains_extends {T : Type} [DecidableEq T] (v : List T) (x : T) :
    ∃ t, push_if_not_contains v x = v ++ t := by
  by_cases hm : x ∈ v
  · exact ⟨[], by rw [push_if_not_contains, if_pos hm, List.append_nil]⟩
  · exact ⟨[x], by rw [push_if_not_contains, if_neg hm]⟩

/-- C9 (confirmed): whenever the declaration scanner finds a value, a hint
is supplied, and the two normalised-and-endianified names differ, the list
`detect` returns starts with the declaration name followed by the hint name,
so the declaration occupies the earlier position. -/
theorem claim_C9_declaration_before_hint (bs1 bs2 hintName enc : List Nat)
    (l : List (List Nat))
    (hdecl : (search encodingNeedle (fillBuf 512 bs2)
          (detect_byte_order_mark (bomOf bs1))).orElse
        (fun _ => search charsetNeedle (fillBuf 512 bs2)
          (detect_byte_order_mark (bomOf bs1))) = some enc)
    (hne : endianify (normalise enc) (detect_byte_order_mark (bomOf bs1)) ≠
        endianify (normalise hintName) (detect_byte_order_mark (bomOf bs1)))
    (hdet : detect (Except.ok bs1) (Except.ok bs2) (some hintName) = Except.ok l) :
    ∃ rest, l =
      endianify (normalise enc) (detect_byte_order_mark (bomOf bs1)) ::
        endianify (normalise hintName) (detect_byte_order_mark (bomOf bs1)) :: rest := by
  simp only [detect, Except.ok.injEq] at hdet
  subst hdet
  have h1 : stepDecl (fillBuf 512 bs2) (detect_byte_order_mark (bomOf bs1)) =
      [endianify (normalise enc) (detect_byte_order_mark (bomOf bs1))] := by
    simp only [stepDecl, hdecl]
    rfl
  have hx : endianify (normalise hintName) (detect_byte_order_mark (bomOf bs1)) ∉
      [endianify (normalise enc) (detect_byte_order_mark (bomOf bs1))] := by
    simp only [List.mem_singleton]
    exact fun hmem => hne hmem.symm
  have h2 : stepHint (detect_byte_order_mark (bomOf bs1)) (some hintName)
      [endianify (normalise enc) (detect_byte_order_mark (bomOf bs1))] =
      [endianify (normalise enc) (detect_byte_order_mark (bomOf bs1)),
        endianify (normalise hintName) (detect_byte_order_mark (bomOf bs1))] := by
    simp only [stepHint]
    unfold push_if_not_contains
    rw [if_neg hx]
    rfl
  have h3 : ∃ t, stepBom (detect_byte_order_mark (bomOf bs1))
      [endianify (normalise enc) (detect_byte_order_mark (bomOf bs1)),
        endianify (normalise hintName) (detect_byte_order_mark (bomOf bs1))] =
      [endianify (normalise enc) (detect_byte_order_mark (bomOf bs1)),
        endianify (normalise hintName) (detect_byte_order_mark (bomOf bs1))] ++ t := by
    unfold stepBom
    cases bomName (detect_byte_order_mark (bomOf bs1)) with
    | none => exact ⟨[], (List.append_nil _).symm⟩
    | some name => exact push_if_not_contains_extends _ name
  obtain ⟨t, ht⟩ := h3
  unfold candidatesOf
  rw [h1, h2, ht]
  exact ⟨t, rfl⟩

theorem claim_C9_witness :
    ∃ rest, ([strToCodes "a", strToCodes "b"] : List (List Nat)) =
      endianify (normalise (strToCodes "a"))
          (detect_byte_order_mark (bomOf (strToCodes "abcd"))) ::
        endianify (normalise (strToCodes "B"))
          (detect_byte_order_mark (bomOf (strToCodes "abcd"))) :: rest :=
  claim_C9_declaration_before_hint (strToCodes "abcd") (strToCodes "encoding=\"a\"")
    (strToCodes "B") (strToCodes "a") [strToCodes "a", strToCodes "b"] rfl (by decide) rfl
